import Mathlib

/-!
Shallow embedding of the core of `docker-ps-bitbar` (file `docker-ps.10s.go`):
the container classification (`fill`), the running predicate (`running`),
anonymous-volume detection (`anonymous`), the container ordering used by
`containerLs`, and the lifecycle-command dispatch (`containerCmd`).

Go strings are modelled as Lean `String`, and the byte-wise string
operations of the source are modelled character-wise on `String.toList`:
the separators (the ASCII characters "," and "="), the "Up " prefix test,
lexicographic comparison, and hexadecimal decoding all agree with their
byte-wise Go counterparts on every input, because UTF-8 byte order
coincides with code-point order and every byte of a multi-byte UTF-8
character is outside the ASCII ranges these operations inspect.
-/

/-- Project type enumeration, from `containerType` in the source
(`Single`, `Group`, `Compose`, `Kubernetes`, `Minikube`, `Talos`,
declared with `iota` so the Go values are consecutive ints 0..5). -/
inductive containerType : Type
  | Single
  | Group
  | Compose
  | Kubernetes
  | Minikube
  | Talos
deriving DecidableEq, Repr, Inhabited

/-- Numeric value of the Go `iota`-defined constant for each project type;
the Go sort compares these int values with `<`. -/
def containerType.toNat : containerType → Nat
  | .Single => 0
  | .Group => 1
  | .Compose => 2
  | .Kubernetes => 3
  | .Minikube => 4
  | .Talos => 5

/-- The `project` struct from the source: a project type plus a name. -/
structure project : Type where
  typ : containerType
  name : String
deriving DecidableEq, Repr, Inhabited

/-- The `container` struct from the source: parsed `docker ps` output for a
single container, plus the `project` field computed by `fill`. -/
structure container : Type where
  Command : String
  CreatedAt : String
  ID : String
  Image : String
  Labels : String
  LocalVolumes : String
  Mounts : String
  Names : String
  Networks : String
  Ports : String
  RunningFor : String
  Size : String
  State : String
  Status : String
  project : project
deriving DecidableEq, Repr, Inhabited

/-- Go's `strings.Split` on a one-character separator, character-wise:
splits at every occurrence of `sep`; the empty input yields one empty
segment, as in Go. -/
def splitChar (sep : Char) : List Char → List (List Char)
  | [] => [[]]
  | ch :: rest =>
    match splitChar sep rest with
    | first :: others =>
      if ch = sep then [] :: first :: others else (ch :: first) :: others
    | [] => [[ch]]

/-- Splitting one comma-separated label segment on "=": the source does
`strings.Split(part, "=")` and keeps the pair only when the result has
exactly two elements (exactly one "=" in the segment). -/
def pairOf (part : List Char) : Option (List Char × List Char) :=
  match splitChar '=' part with
  | [k, v] => some (k, v)
  | _ => none

/-- The label keys recognized by the `switch` in `fill`, mapped to the
project type each case assigns. -/
def recognizedType (k : List Char) : Option containerType :=
  if k = "com.github.AlekSi.docker-ps.group".toList then some .Group
  else if k = "com.docker.compose.project".toList then some .Compose
  else if k = "io.kubernetes.pod.namespace".toList then some .Kubernetes
  else if k = "name.minikube.sigs.k8s.io".toList then some .Minikube
  else if k = "talos.cluster.name".toList then some .Talos
  else none

/-- Effect of the `switch k` statement in `fill` for one `key=value` pair:
each recognized key sets the project type and name; the Kubernetes and
Minikube cases additionally clear `Image` ("remove very long image name
with sha256 hash tag" in the source); unrecognized keys change nothing. -/
def keyStep (c : container) (k v : List Char) : container :=
  if k = "com.github.AlekSi.docker-ps.group".toList then
    { c with project := ⟨.Group, String.mk v⟩ }
  else if k = "com.docker.compose.project".toList then
    { c with project := ⟨.Compose, String.mk v⟩ }
  else if k = "io.kubernetes.pod.namespace".toList then
    { c with project := ⟨.Kubernetes, String.mk v⟩, Image := "" }
  else if k = "name.minikube.sigs.k8s.io".toList then
    { c with project := ⟨.Minikube, String.mk v⟩, Image := "" }
  else if k = "talos.cluster.name".toList then
    { c with project := ⟨.Talos, String.mk v⟩ }
  else c

/-- One iteration of the loop body of `fill`: split the segment on "=",
skip it when the split does not yield exactly two parts, otherwise apply
the `switch`. -/
def fillStep (c : container) (part : List Char) : container :=
  match pairOf part with
  | some (k, v) => keyStep c k v
  | none => c

/-- The loop of `fill`: process the comma-separated segments in order; after
each iteration, if the project name is non-empty, return. -/
def fillLoop : container → List (List Char) → container
  | c, [] => c
  | c, part :: rest =>
    let c2 := fillStep c part
    if c2.project.name ≠ "" then c2 else fillLoop c2 rest

/-- The `fill` method from the source: set `project.typ` to `Single`, then
scan the segments of `Labels` split on ",". -/
def fill (c : container) : container :=
  fillLoop { c with project := { c.project with typ := .Single } }
    (splitChar ',' c.Labels.toList)

/-- The `running` method from the source:
`c.State == "running" || strings.HasPrefix(c.Status, "Up ")`. -/
def running (c : container) : Bool :=
  c.State == "running" || "Up ".toList.isPrefixOf c.Status.toList

/-- Go's byte-wise string comparison `<`, character-wise: the first
differing position decides; a proper initial segment is smaller. -/
def ltChars : List Char → List Char → Bool
  | [], [] => false
  | [], _ :: _ => true
  | _ :: _, [] => false
  | a :: as, b :: bs =>
    if a < b then true else if b < a then false else ltChars as bs

/-- The comparison closure passed to `sort.Slice` in `containerLs`: compare
by project type (as its Go int value), then project name, then `Names`. -/
def containerLess (a b : container) : Bool :=
  if a.project.typ.toNat ≠ b.project.typ.toNat then
    a.project.typ.toNat < b.project.typ.toNat
  else if a.project.name ≠ b.project.name then
    ltChars a.project.name.toList b.project.name.toList
  else
    ltChars a.Names.toList b.Names.toList

/-- Non-strict version of `containerLess`; a sequence is ordered for
`sort.Slice` exactly when it is pairwise ordered by this relation. -/
def containerLE (a b : container) : Bool :=
  !containerLess b a

/-- The sorting step of `containerLs`, modelled by a merge sort satisfying
`sort.Slice`'s postcondition (output pairwise ordered by `containerLE` and a
permutation of the input). -/
def order (l : List container) : List container :=
  l.mergeSort containerLE

/-- The grouping key of a classified container: its (type, name) project
pair; `defaultCmd` emits one group header per change of this pair and the
dispatch filter matches on the name component. -/
def projKey (c : container) : containerType × String :=
  (c.project.typ, c.project.name)

/-- The `volume` struct from the source: parsed `docker volume ls` output. -/
structure volume : Type where
  Driver : String
  Name : String
deriving DecidableEq, Repr, Inhabited

/-- Characters accepted by Go's `encoding/hex` decoder: ASCII digits and
hexadecimal letters of either case. -/
def isGoHexDigit (ch : Char) : Bool :=
  ('0' ≤ ch && ch ≤ '9') || ('a' ≤ ch && ch ≤ 'f') || ('A' ≤ ch && ch ≤ 'F')

/-- Success of Go's `hex.DecodeString`: the length is even and every
character is a hexadecimal digit (of either case). -/
def hexDecodeOk (s : String) : Bool :=
  s.length % 2 = 0 && s.toList.all isGoHexDigit

/-- The `anonymous` method from the source: driver must be "local", the name
must have length 64, and `hex.DecodeString` of the name must succeed. -/
def anonymous (v : volume) : Bool :=
  if v.Driver ≠ "local" then false
  else if v.Name.length ≠ 64 then false
  else hexDecodeOk v.Name

/-- Lowercase hexadecimal digit, following the spec's words ("64-character
lowercase hexadecimal string"); used to compare the spec's description of
anonymous volumes with the source's `anonymous`. -/
def isLowerHexDigit (ch : Char) : Bool :=
  ('0' ≤ ch && ch ≤ '9') || ('a' ≤ ch && ch ≤ 'f')

/-- Anonymous-volume predicate as the spec words it: driver "local" and a
64-character lowercase hexadecimal name. -/
def specAnonymous (v : volume) : Prop :=
  v.Driver = "local" ∧ v.Name.length = 64 ∧ v.Name.toList.all isLowerHexDigit = true

/-- The filter test in `containerCmd`: a container is skipped when the
project-name filter is non-empty and differs from the container's project
name; this is the negation of that skip condition. -/
def passesFilter (projectName : String) (c : container) : Bool :=
  !(projectName ≠ "" && projectName ≠ c.project.name)

/-- The `switch command` statement in `containerCmd`, evaluated for one
container that passed the filter: `some add` gives the eligibility flag,
`none` is the `default` branch (`log.Fatalf("Unexpected command ...")`,
which terminates the process). -/
def cmdEligible (command : String) (c : container) : Option Bool :=
  if command = "start" ∨ command = "rm" then some (!running c)
  else if command = "restart" then some true
  else if command = "stop" ∨ command = "kill" then some (running c)
  else none

/-- The selection loop of `containerCmd` over an already-listed container
sequence: skip containers failing the filter, abort (`none`) at the first
filtered container when the command is unrecognized, otherwise collect the
IDs of eligible containers in order. -/
def selectIds (command projectName : String) : List container → Option (List String)
  | [] => some []
  | c :: cs =>
    if passesFilter projectName c then
      match cmdEligible command c with
      | none => none
      | some add =>
        match selectIds command projectName cs with
        | none => none
        | some rest => some (if add then c.ID :: rest else rest)
    else selectIds command projectName cs

/-- Outcome of one `containerCmd` invocation: fatal abort
(`log.Fatalf`, before any mutating call), silent no-op (empty eligible
set), or a single batched invocation of the external tool with the given
argument list. -/
inductive dispatchOutcome : Type
  | fatal
  | noop
  | invoke (args : List String)
deriving DecidableEq, Repr

/-- The `containerCmd` function from the source, over an already-listed
container sequence: select eligible IDs; if none, return silently; else
issue one `docker <command> [--force --volumes] <ids>` call (the extra
flags only for `rm`). -/
def containerCmd (command projectName : String) (containers : List container) :
    dispatchOutcome :=
  match selectIds command projectName containers with
  | none => .fatal
  | some [] => .noop
  | some ids =>
    .invoke ((command :: (if command = "rm" then ["--force", "--volumes"] else [])) ++ ids)

/-- Scan of the spec's classification contract over the split label
segments: skip malformed segments, and the first recognized key whose value
is non-empty yields the final (type, name) pair. -/
def firstWin : List (List Char) → Option (containerType × String)
  | [] => none
  | part :: rest =>
    match pairOf part with
    | some (k, v) =>
      match recognizedType k with
      | some t => if v ≠ [] then some (t, String.mk v) else firstWin rest
      | none => firstWin rest
    | none => firstWin rest

/-- Whether some segment of the split label string is a well-formed
`key=value` pair whose key is recognized. -/
def hasRecognizedPair (parts : List (List Char)) : Bool :=
  parts.any fun part =>
    match pairOf part with
    | some (k, _) => (recognizedType k).isSome
    | none => false

/-- Whether some segment is a recognized key paired with an empty value
(the pathological shape under which classification can leave a non-Single
project with an empty name). -/
def hasRecognizedEmptyPair (parts : List (List Char)) : Bool :=
  parts.any fun part =>
    match pairOf part with
    | some (k, v) => (recognizedType k).isSome && v = []
    | none => false

/-- Whether a segment is a well-formed pair whose key is the Kubernetes
pod-namespace key or the Minikube profile key (the only two cases of the
`switch` in `fill` that clear the image reference). -/
def isKMPair (part : List Char) : Bool :=
  match pairOf part with
  | some (k, _) =>
    k = "io.kubernetes.pod.namespace".toList || k = "name.minikube.sigs.k8s.io".toList
  | none => false

/-- Test fixture: a container record with the given ID, name, labels,
image, state and status, all other fields empty, and the project at its
zero value (the state of a record freshly decoded from `docker ps` JSON
output, before `fill`). -/
def mkC (id nm labels img st status : String) : container :=
  { Command := "", CreatedAt := "", ID := id, Image := img, Labels := labels,
    LocalVolumes := "", Mounts := "", Names := nm, Networks := "", Ports := "",
    RunningFor := "", Size := "", State := st, Status := status,
    project := ⟨.Single, ""⟩ }

/-- Equality of every container field except `project` and `Image` (the two
fields `fill` may change). -/
def sameFrame (a b : container) : Prop :=
  a.Command = b.Command ∧ a.CreatedAt = b.CreatedAt ∧ a.ID = b.ID ∧ a.Labels = b.Labels ∧
  a.LocalVolumes = b.LocalVolumes ∧ a.Mounts = b.Mounts ∧ a.Names = b.Names ∧
  a.Networks = b.Networks ∧ a.Ports = b.Ports ∧ a.RunningFor = b.RunningFor ∧
  a.Size = b.Size ∧ a.State = b.State ∧ a.Status = b.Status

/-- Invariant of the classification loop: a container whose project type is
Kubernetes or Minikube has an empty image reference. -/
def kmOk (c : container) : Prop :=
  (c.project.typ = containerType.Kubernetes ∨ c.project.typ = containerType.Minikube) →
    c.Image = ""

/-- Sort key of a container for the ordering of `containerLs`: the lexical
triple (project type value, project name, display name). -/
def sortKey (c : container) : Lex (Nat × Lex (List Char × List Char)) :=
  toLex (c.project.typ.toNat, toLex (c.project.name.toList, c.Names.toList))

/-- Group key of a container as a lexical pair (project type value, project
name characters); projecting `sortKey` to its first two components. -/
def groupKey (c : container) : Lex (Nat × List Char) :=
  toLex (c.project.typ.toNat, c.project.name.toList)

/-- Test fixture for the image-clearing and scan-continuation behaviour:
a Kubernetes namespace key with an empty value followed by a Compose key. -/
def exC10 : container :=
  mkC "a4" "n4" "io.kubernetes.pod.namespace=,com.docker.compose.project=web" "nginx" "" ""

/-- Test fixture: a Compose project label with an empty value. -/
def exC4 : container := mkC "x" "nx" "com.docker.compose.project=" "" "" ""

/-- Test fixture: like exC10, with a non-empty image reference. -/
def exC9 : container :=
  mkC "k1" "nk" "io.kubernetes.pod.namespace=,com.docker.compose.project=web" "nginx:latest" "" ""

/-- Test fixture: a Kubernetes pod-namespace label with a non-empty value. -/
def exK8s : container :=
  mkC "k2" "nk2" "io.kubernetes.pod.namespace=kube-system" "registry.k8s.io/pause@sha256" "" ""

/-- Test fixture: three single containers already in display-name order. -/
def demoSorted : List container :=
  [mkC "i1" "aa" "" "" "" "", mkC "i2" "bb" "" "" "" "", mkC "i3" "cc" "" "" "" ""]

lemma cmdEligible_of_unrecognized {command : String}
    (h : command ≠ "start" ∧ command ≠ "stop" ∧ command ≠ "restart" ∧
      command ≠ "kill" ∧ command ≠ "rm") (c : container) :
    cmdEligible command c = none := by
  obtain ⟨h1, h2, h3, h4, h5⟩ := h
  simp [cmdEligible, h1, h2, h3, h4, h5]

lemma selectIds_of_unrecognized {command : String}
    (h : command ≠ "start" ∧ command ≠ "stop" ∧ command ≠ "restart" ∧
      command ≠ "kill" ∧ command ≠ "rm") (projectName : String) (cs : List container) :
    selectIds command projectName cs =
      if cs.any (passesFilter projectName) then none else some [] := by
  induction cs with
  | nil => simp [selectIds]
  | cons c rest ih =>
    by_cases hp : passesFilter projectName c
    · simp [selectIds, hp, cmdEligible_of_unrecognized h]
    · simp [selectIds, hp, ih]

/-- Claim C3, amended: for a command outside {start, stop, restart, kill, rm},
dispatch performs zero mutating calls (never reaches the batched invocation),
and it aborts fatally with the unexpected-command error exactly when at least
one container passes the project-name filter; with an empty or fully
filtered-out container list it returns silently instead, because the
command check sits inside the per-container loop. -/
theorem C3_unsupported (command projectName : String) (cs : List container)
    (h : command ≠ "start" ∧ command ≠ "stop" ∧ command ≠ "restart" ∧
      command ≠ "kill" ∧ command ≠ "rm") :
    (∀ args, containerCmd command projectName cs ≠ dispatchOutcome.invoke args) ∧
    (containerCmd command projectName cs = dispatchOutcome.fatal ↔
      ∃ c ∈ cs, passesFilter projectName c = true) := by
  have hs := selectIds_of_unrecognized h projectName cs
  by_cases ha : cs.any (passesFilter projectName)
  · rw [if_pos ha] at hs
    rw [List.any_eq_true] at ha
    constructor
    · intro args; simp [containerCmd, hs]
    · constructor
      · intro _; exact ha
      · intro _; simp [containerCmd, hs]
  · rw [if_neg ha] at hs
    constructor
    · intro args; simp [containerCmd, hs]
    · constructor
      · intro hcontra; simp [containerCmd, hs] at hcontra
      · intro hex
        exfalso
        rw [List.any_eq_true] at ha
        exact ha hex

/-- Claim C3, counterexample: the command "foo" is outside the recognized
set, yet dispatching it over an empty container list is a silent no-op, not
an UnsupportedCommand failure. -/
theorem C3_counterexample :
    ("foo" ≠ "start" ∧ "foo" ≠ "stop" ∧ "foo" ≠ "restart" ∧ "foo" ≠ "kill" ∧ "foo" ≠ "rm") ∧
    containerCmd "foo" "" [] = dispatchOutcome.noop ∧
    dispatchOutcome.noop ≠ dispatchOutcome.fatal := by
  refine ⟨by decide, ?_, by decide⟩
  decide

/-- Instance of C3_unsupported at a concrete input. -/
theorem C3_witness :
    containerCmd "foo" "" [mkC "a1" "n1" "" "" "" ""] ≠ dispatchOutcome.invoke ["foo"] :=
  (C3_unsupported "foo" "" [mkC "a1" "n1" "" "" "" ""] (by decide)).1 ["foo"]

lemma cmdEligible_of_recognized {command : String}
    (h : command = "start" ∨ command = "stop" ∨ command = "restart" ∨
      command = "kill" ∨ command = "rm") (c : container) :
    cmdEligible command c ≠ none := by
  rcases h with h | h | h | h | h <;> subst h <;> simp [cmdEligible]

lemma selectIds_of_recognized {command : String}
    (h : command = "start" ∨ command = "stop" ∨ command = "restart" ∨
      command = "kill" ∨ command = "rm") (projectName : String) (cs : List container) :
    ∃ ids, selectIds command projectName cs = some ids := by
  induction cs with
  | nil => exact ⟨[], rfl⟩
  | cons c rest ih =>
    obtain ⟨ids, hids⟩ := ih
    by_cases hp : passesFilter projectName c
    · cases he : cmdEligible command c with
      | none => exact absurd he (cmdEligible_of_recognized h c)
      | some add =>
        refine ⟨if add then c.ID :: ids else ids, ?_⟩
        simp [selectIds, hp, he, hids]
    · refine ⟨ids, ?_⟩
      simp [selectIds, hp, hids]

/-- Claim C8: for every recognized command, the selection loop always
succeeds (never aborts), and when the computed eligible set is empty the
dispatch is a silent no-op: it reports success and performs zero mutating
calls to the external tool. -/
theorem C8_empty_noop (command projectName : String) (cs : List container)
    (h : command = "start" ∨ command = "stop" ∨ command = "restart" ∨
      command = "kill" ∨ command = "rm") :
    (∃ ids, selectIds command projectName cs = some ids) ∧
    (selectIds command projectName cs = some [] →
      containerCmd command projectName cs = dispatchOutcome.noop ∧
      ∀ args, containerCmd command projectName cs ≠ dispatchOutcome.invoke args) := by
  refine ⟨selectIds_of_recognized h projectName cs, fun hsel => ?_⟩
  constructor
  · simp [containerCmd, hsel]
  · intro args; simp [containerCmd, hsel]

/-- Instance of C8_empty_noop at a concrete input: the only container is
running, so "start" selects nothing and dispatch is a no-op. -/
theorem C8_witness :
    containerCmd "start" "" [mkC "a1" "n1" "" "" "" "Up 2 hours"] = dispatchOutcome.noop :=
  ((C8_empty_noop "start" "" [mkC "a1" "n1" "" "" "" "Up 2 hours"] (Or.inl rfl)).2 (by decide)).1

/-- Claim C6: the derived running predicate is true iff the explicit state
field equals the literal "running" or the status text begins with the
prefix "Up "; it is false for every other combination of state and
status text. -/
theorem C6_running_iff (c : container) :
    running c = true ↔
      (c.State = "running" ∨ "Up ".toList.isPrefixOf c.Status.toList = true) := by
  simp [running]

/-- Claim C5, counterexample: a driver-"local" volume whose name is 64
uppercase hexadecimal characters is accepted by the source's anonymous
check (Go's hex decoder accepts either case), but it is not a lowercase
hexadecimal name as the claim requires. -/
theorem C5_counterexample :
    anonymous ⟨"local", String.mk (List.replicate 64 'A')⟩ = true ∧
    ¬ specAnonymous ⟨"local", String.mk (List.replicate 64 'A')⟩ := by
  constructor
  · decide
  · unfold specAnonymous; decide

/-- Claim C5, amended: a volume is anonymous iff its driver is "local" and
its name is a 64-character hexadecimal string with digits of either case
(not only lowercase); in particular a 63-character or non-hex name is not
anonymous. -/
theorem C5_amended (v : volume) :
    anonymous v = true ↔
      (v.Driver = "local" ∧ v.Name.length = 64 ∧ v.Name.toList.all isGoHexDigit = true) := by
  unfold anonymous hexDecodeOk
  by_cases h1 : v.Driver = "local"
  · by_cases h2 : v.Name.length = 64
    · simp [h1, h2]
    · simp [h1, h2]
  · simp [h1]

lemma selectIds_mem (command projectName : String) :
    ∀ (cs : List container) (ids : List String),
      selectIds command projectName cs = some ids →
      ∀ i ∈ ids, ∃ c ∈ cs, c.ID = i ∧ passesFilter projectName c = true ∧
        cmdEligible command c = some true := by
  intro cs
  induction cs with
  | nil =>
    intro ids h i hi
    simp [selectIds] at h
    subst h
    simp at hi
  | cons c rest ih =>
    intro ids h i hi
    simp only [selectIds] at h
    by_cases hp : passesFilter projectName c
    · rw [if_pos hp] at h
      cases he : cmdEligible command c with
      | none => rw [he] at h; simp at h
      | some add =>
        rw [he] at h
        cases hr : selectIds command projectName rest with
        | none => rw [hr] at h; simp at h
        | some rest2 =>
          rw [hr] at h
          simp only [Option.some.injEq] at h
          subst h
          cases add with
          | true =>
            rw [if_pos rfl] at hi
            rcases List.mem_cons.mp hi with hic | hir
            · exact ⟨c, List.mem_cons_self c rest, hic.symm, hp, he⟩
            · obtain ⟨c2, hc2, h1, h2, h3⟩ := ih rest2 hr i hir
              exact ⟨c2, List.mem_cons_of_mem c hc2, h1, h2, h3⟩
          | false =>
            rw [if_neg (by simp)] at hi
            obtain ⟨c2, hc2, h1, h2, h3⟩ := ih rest2 hr i hi
            exact ⟨c2, List.mem_cons_of_mem c hc2, h1, h2, h3⟩
    · rw [if_neg hp] at h
      obtain ⟨c2, hc2, h1, h2, h3⟩ := ih ids h i hi
      exact ⟨c2, List.mem_cons_of_mem c hc2, h1, h2, h3⟩

lemma selectIds_restart_complete (projectName : String) :
    ∀ (cs : List container) (ids : List String),
      selectIds "restart" projectName cs = some ids →
      ∀ c ∈ cs, passesFilter projectName c = true → c.ID ∈ ids := by
  intro cs
  induction cs with
  | nil => intro ids h c hc; simp at hc
  | cons c0 rest ih =>
    intro ids h c hc hcp
    simp only [selectIds] at h
    have he : cmdEligible "restart" c0 = some true := by simp [cmdEligible]
    by_cases hp : passesFilter projectName c0
    · rw [if_pos hp, he] at h
      cases hr : selectIds "restart" projectName rest with
      | none => rw [hr] at h; simp at h
      | some rest2 =>
        rw [hr] at h
        simp only [if_pos rfl, Option.some.injEq] at h
        subst h
        rcases List.mem_cons.mp hc with rfl | hcr
        · exact List.mem_cons_self _ _
        · exact List.mem_cons_of_mem _ (ih rest2 hr c hcr hcp)
    · rw [if_neg hp] at h
      rcases List.mem_cons.mp hc with rfl | hcr
      · exact absurd hcp hp
      · exact ih ids h c hcr hcp

/-- Claim C1: whenever the selection loop returns an identifier set, every
selected identifier belongs to a container that passes the exact-match
project-name filter (an empty filter matches everything) and satisfies the
command's eligibility predicate; for "restart" every filtered container is
selected; and the eligibility predicates are: not running for "start" and
"rm", running for "stop" and "kill", always true for "restart". -/
theorem C1_selection (command projectName : String) (cs : List container)
    (ids : List String) (h : selectIds command projectName cs = some ids) :
    (∀ i ∈ ids, ∃ c ∈ cs, c.ID = i ∧ passesFilter projectName c = true ∧
      cmdEligible command c = some true) ∧
    (command = "restart" → ∀ c ∈ cs, passesFilter projectName c = true → c.ID ∈ ids) ∧
    (∀ c : container,
      cmdEligible "start" c = some (!running c) ∧
      cmdEligible "rm" c = some (!running c) ∧
      cmdEligible "restart" c = some true ∧
      cmdEligible "stop" c = some (running c) ∧
      cmdEligible "kill" c = some (running c)) := by
  refine ⟨selectIds_mem command projectName cs ids h, fun hc => ?_, fun c => ?_⟩
  · subst hc; exact selectIds_restart_complete projectName cs ids h
  · exact ⟨by simp [cmdEligible], by simp [cmdEligible], by simp [cmdEligible],
      by simp [cmdEligible], by simp [cmdEligible]⟩

/-- Instance of C1_selection at a concrete input: "start" over one running
and one stopped container selects exactly the stopped one. -/
theorem C1_witness :
    ∃ c ∈ [mkC "a1" "n1" "" "" "" "Up 2 hours", mkC "a2" "n2" "" "" "" "Exited (0) 3 days ago"],
      c.ID = "a2" ∧ passesFilter "" c = true ∧ cmdEligible "start" c = some true :=
  (C1_selection "start" ""
    [mkC "a1" "n1" "" "" "" "Up 2 hours", mkC "a2" "n2" "" "" "" "Exited (0) 3 days ago"]
    ["a2"] (by decide)).1 "a2" (by decide)

lemma keyStep_of_unrecognized {k : List Char} (h : recognizedType k = none)
    (c : container) (v : List Char) : keyStep c k v = c := by
  unfold recognizedType at h
  unfold keyStep
  split_ifs at h ⊢
  all_goals simp_all

lemma keyStep_of_recognized {k : List Char} {t : containerType}
    (h : recognizedType k = some t) (c : container) (v : List Char) :
    (keyStep c k v).project = ⟨t, String.mk v⟩ ∧
    ((t = .Kubernetes ∨ t = .Minikube) → (keyStep c k v).Image = "") ∧
    (¬(t = .Kubernetes ∨ t = .Minikube) → (keyStep c k v).Image = c.Image) := by
  unfold recognizedType at h
  unfold keyStep
  split_ifs at h ⊢ <;> try (injection h with h2)
  all_goals try subst h2
  all_goals simp_all

/-- Claim C10: a recognized key with an empty value overwrites the project
type (leaving the name empty), the scan continues past it, and for the
Kubernetes and Minikube keys the image reference is cleared; concretely,
the label string "io.kubernetes.pod.namespace=,com.docker.compose.project=web"
classifies as (Compose, "web") with the image reference cleared. -/
theorem C10_empty_value_continues (c : container) (part : List Char)
    (rest : List (List Char)) (k v : List Char) (t : containerType)
    (hp : pairOf part = some (k, v)) (hr : recognizedType k = some t) (hv : v = []) :
    (fillStep c part).project = ⟨t, ""⟩ ∧
    fillLoop c (part :: rest) = fillLoop (fillStep c part) rest ∧
    ((t = .Kubernetes ∨ t = .Minikube) → (fillStep c part).Image = "") ∧
    (fill exC10).project = ⟨.Compose, "web"⟩ ∧ (fill exC10).Image = "" := by
  subst hv
  have hstep : fillStep c part = keyStep c k [] := by simp [fillStep, hp]
  obtain ⟨hproj, hkm, _⟩ := keyStep_of_recognized hr c []
  have hname : (fillStep c part).project.name = "" := by rw [hstep, hproj]
  refine ⟨?_, ?_, ?_, by decide, by decide⟩
  · rw [hstep, hproj]
  · simp [fillLoop, hname]
  · rw [hstep]; exact hkm

/-- Instance of C10_empty_value_continues at a concrete input. -/
theorem C10_witness :
    (fillStep (mkC "x" "x" "" "nginx" "" "") "io.kubernetes.pod.namespace=".toList).project =
      ⟨containerType.Kubernetes, ""⟩ :=
  (C10_empty_value_continues (mkC "x" "x" "" "nginx" "" "")
    "io.kubernetes.pod.namespace=".toList []
    "io.kubernetes.pod.namespace".toList [] .Kubernetes (by decide) (by decide) rfl).1

lemma strMk_eq_empty_iff (v : List Char) : String.mk v = "" ↔ v = [] := by
  constructor
  · intro h; exact congrArg String.data h
  · intro h; subst h; rfl

lemma fillStep_of_no_pair {part : List Char} (h : pairOf part = none) (c : container) :
    fillStep c part = c := by
  simp [fillStep, h]

lemma fillStep_of_pair {part k v : List Char} (h : pairOf part = some (k, v)) (c : container) :
    fillStep c part = keyStep c k v := by
  simp [fillStep, h]

lemma firstWin_name_ne :
    ∀ (parts : List (List Char)) (t : containerType) (n : String),
      firstWin parts = some (t, n) → n ≠ "" := by
  intro parts
  induction parts with
  | nil => intro t n hw; simp [firstWin] at hw
  | cons part rest ih =>
    intro t n hw
    simp only [firstWin] at hw
    cases hp : pairOf part with
    | none => rw [hp] at hw; exact ih t n hw
    | some kv =>
      obtain ⟨k, v⟩ := kv
      simp only [hp] at hw
      cases hr : recognizedType k with
      | none => simp only [hr] at hw; exact ih t n hw
      | some t2 =>
        simp only [hr] at hw
        by_cases hv : v = []
        · subst hv; rw [if_neg (by simp)] at hw; exact ih t n hw
        · rw [if_pos hv] at hw
          simp only [Option.some.injEq, Prod.mk.injEq] at hw
          obtain ⟨_, hn⟩ := hw
          subst hn
          simpa [strMk_eq_empty_iff] using hv

lemma fillLoop_firstWin :
    ∀ (parts : List (List Char)) (c : container), c.project.name = "" →
      ∀ t n, firstWin parts = some (t, n) → (fillLoop c parts).project = ⟨t, n⟩ := by
  intro parts
  induction parts with
  | nil => intro c h t n hw; simp [firstWin] at hw
  | cons part rest ih =>
    intro c h t n hw
    simp only [firstWin] at hw
    simp only [fillLoop]
    cases hp : pairOf part with
    | none =>
      rw [hp] at hw
      rw [fillStep_of_no_pair hp]
      rw [if_neg (by simp [h])]
      exact ih c h t n hw
    | some kv =>
      obtain ⟨k, v⟩ := kv
      simp only [hp] at hw
      rw [fillStep_of_pair hp]
      cases hr : recognizedType k with
      | none =>
        simp only [hr] at hw
        rw [keyStep_of_unrecognized hr]
        rw [if_neg (by simp [h])]
        exact ih c h t n hw
      | some t2 =>
        simp only [hr] at hw
        obtain ⟨hproj, _, _⟩ := keyStep_of_recognized hr c v
        by_cases hv : v = []
        · subst hv
          rw [if_neg (by simp)] at hw
          rw [if_neg (by rw [hproj]; simp)]
          exact ih _ (by rw [hproj]) t n hw
        · rw [if_pos hv] at hw
          simp only [Option.some.injEq, Prod.mk.injEq] at hw
          obtain ⟨ht, hn⟩ := hw
          subst ht; subst hn
          rw [if_pos (by rw [hproj]; simpa [strMk_eq_empty_iff] using hv)]
          exact hproj

lemma fillLoop_of_no_recognized :
    ∀ (parts : List (List Char)) (c : container),
      hasRecognizedPair parts = false → fillLoop c parts = c := by
  intro parts
  induction parts with
  | nil => intro c _; rfl
  | cons part rest ih =>
    intro c hno
    simp only [hasRecognizedPair, List.any_cons, Bool.or_eq_false_iff] at hno
    obtain ⟨hpart, hrest⟩ := hno
    have hrest2 : hasRecognizedPair rest = false := hrest
    simp only [fillLoop]
    have hstep : fillStep c part = c := by
      cases hp : pairOf part with
      | none => exact fillStep_of_no_pair hp c
      | some kv =>
        obtain ⟨k, v⟩ := kv
        simp only [hp] at hpart
        cases hr : recognizedType k with
        | none => rw [fillStep_of_pair hp, keyStep_of_unrecognized hr]
        | some t2 => rw [hr] at hpart; simp at hpart
    rw [hstep]
    by_cases hn : c.project.name ≠ ""
    · rw [if_pos hn]
    · rw [if_neg hn]
      exact ih c hrest2

/-- Claim C2: classification splits the label string on "," then on "=",
silently skips segments that do not split into exactly one key and one
value, and the first recognized key whose value is non-empty determines the
final (type, name) project pair; a label string with no recognized
well-formed pair, and in particular the empty label string, yields
(Single, ""). -/
theorem C2_classification (c : container) (h : c.project.name = "") :
    (∀ t n, firstWin (splitChar ',' c.Labels.toList) = some (t, n) →
      (fill c).project = ⟨t, n⟩ ∧ n ≠ "") ∧
    (hasRecognizedPair (splitChar ',' c.Labels.toList) = false →
      (fill c).project = ⟨containerType.Single, ""⟩) ∧
    (c.Labels = "" → (fill c).project = ⟨containerType.Single, ""⟩) := by
  have hinit : ({ c with project := { c.project with typ := .Single } } : container).project.name = "" := h
  refine ⟨fun t n hw => ?_, fun hno => ?_, fun hlab => ?_⟩
  · exact ⟨fillLoop_firstWin _ _ hinit t n hw, firstWin_name_ne _ t n hw⟩
  · unfold fill
    rw [fillLoop_of_no_recognized _ _ hno]
    simp [h]
  · unfold fill
    rw [hlab]
    rw [fillLoop_of_no_recognized _ _ (by decide)]
    simp [h]

/-- Instance of C2_classification at a concrete input. -/
theorem C2_witness :
    (fill (mkC "a1" "n1" "com.docker.compose.project=web" "" "" "")).project =
      ⟨containerType.Compose, "web"⟩ ∧ ("web" : String) ≠ "" :=
  (C2_classification (mkC "a1" "n1" "com.docker.compose.project=web" "" "" "") rfl).1
    containerType.Compose "web" (by decide)

lemma fillLoop_name_preserved :
    ∀ (parts : List (List Char)) (c : container),
      hasRecognizedEmptyPair parts = false →
      (fillLoop c parts).project.name = "" → (fillLoop c parts).project = c.project := by
  intro parts
  induction parts with
  | nil => intro c _ _; rfl
  | cons part rest ih =>
    intro c hno hname
    simp only [hasRecognizedEmptyPair, List.any_cons, Bool.or_eq_false_iff] at hno
    obtain ⟨hpart, hrest⟩ := hno
    have hrest2 : hasRecognizedEmptyPair rest = false := hrest
    simp only [fillLoop] at hname ⊢
    cases hp : pairOf part with
    | none =>
      rw [fillStep_of_no_pair hp] at hname ⊢
      by_cases hn : c.project.name ≠ ""
      · rw [if_pos hn]
      · rw [if_neg hn] at hname ⊢
        exact ih c hrest2 hname
    | some kv =>
      obtain ⟨k, v⟩ := kv
      simp only [hp] at hpart
      rw [fillStep_of_pair hp] at hname ⊢
      cases hr : recognizedType k with
      | none =>
        rw [keyStep_of_unrecognized hr] at hname ⊢
        by_cases hn : c.project.name ≠ ""
        · rw [if_pos hn]
        · rw [if_neg hn] at hname ⊢
          exact ih c hrest2 hname
      | some t2 =>
        rw [hr] at hpart
        simp only [Option.isSome_some, Bool.true_and, decide_eq_false_iff_not] at hpart
        obtain ⟨hproj, _, _⟩ := keyStep_of_recognized hr c v
        have hkn : (keyStep c k v).project.name ≠ "" := by
          rw [hproj]; simpa [strMk_eq_empty_iff] using hpart
        rw [if_pos hkn] at hname ⊢
        exact absurd hname hkn

/-- Claim C4, counterexample: the label string
"com.docker.compose.project=" (a recognized key with an empty value)
classifies with ProjectType Compose and an empty ProjectName. -/
theorem C4_counterexample :
    (fill exC4).project.name = "" ∧ (fill exC4).project.typ = containerType.Compose ∧
    containerType.Compose ≠ containerType.Single := by
  exact ⟨by decide, by decide, by decide⟩

/-- Claim C4, amended: for a record whose label string contains no
recognized key paired with an empty value, an empty ProjectName after
classification implies ProjectType Single. -/
theorem C4_amended (c : container) (_h : c.project.name = "")
    (hno : hasRecognizedEmptyPair (splitChar ',' c.Labels.toList) = false) :
    (fill c).project.name = "" → (fill c).project.typ = containerType.Single := by
  intro hname
  unfold fill at hname ⊢
  rw [fillLoop_name_preserved _ _ hno hname]

/-- Instance of C4_amended at a concrete input. -/
theorem C4_witness :
    (fill (mkC "a" "n" "foo=bar" "" "" "")).project.typ = containerType.Single :=
  C4_amended (mkC "a" "n" "foo=bar" "" "" "") rfl (by decide) (by decide)

lemma sameFrame_refl (a : container) : sameFrame a a := by
  unfold sameFrame
  exact ⟨rfl, rfl, rfl, rfl, rfl, rfl, rfl, rfl, rfl, rfl, rfl, rfl, rfl⟩

lemma sameFrame_trans {a b c : container} (h1 : sameFrame a b) (h2 : sameFrame b c) :
    sameFrame a c := by
  unfold sameFrame at h1 h2 ⊢
  obtain ⟨a1, a2, a3, a4, a5, a6, a7, a8, a9, a10, a11, a12, a13⟩ := h1
  obtain ⟨b1, b2, b3, b4, b5, b6, b7, b8, b9, b10, b11, b12, b13⟩ := h2
  exact ⟨a1.trans b1, a2.trans b2, a3.trans b3, a4.trans b4, a5.trans b5, a6.trans b6,
    a7.trans b7, a8.trans b8, a9.trans b9, a10.trans b10, a11.trans b11, a12.trans b12,
    a13.trans b13⟩

lemma keyStep_frame (c : container) (k v : List Char) : sameFrame (keyStep c k v) c := by
  unfold keyStep
  split_ifs <;>
    exact ⟨rfl, rfl, rfl, rfl, rfl, rfl, rfl, rfl, rfl, rfl, rfl, rfl, rfl⟩

lemma fillStep_frame (c : container) (part : List Char) : sameFrame (fillStep c part) c := by
  cases hp : pairOf part with
  | none => rw [fillStep_of_no_pair hp]; exact sameFrame_refl c
  | some kv => obtain ⟨k, v⟩ := kv; rw [fillStep_of_pair hp]; exact keyStep_frame c k v

lemma fillLoop_frame : ∀ (parts : List (List Char)) (c : container),
    sameFrame (fillLoop c parts) c := by
  intro parts
  induction parts with
  | nil => intro c; exact sameFrame_refl c
  | cons part rest ih =>
    intro c
    simp only [fillLoop]
    by_cases hn : (fillStep c part).project.name ≠ ""
    · rw [if_pos hn]; exact fillStep_frame c part
    · rw [if_neg hn]; exact sameFrame_trans (ih (fillStep c part)) (fillStep_frame c part)

lemma keyStep_image_km (c : container) (k v : List Char) :
    (keyStep c k v).Image = c.Image ∨
      ((keyStep c k v).Image = "" ∧
        (k = "io.kubernetes.pod.namespace".toList ∨
          k = "name.minikube.sigs.k8s.io".toList)) := by
  unfold keyStep
  split_ifs with h1 h2 h3 h4 h5
  · exact Or.inl rfl
  · exact Or.inl rfl
  · exact Or.inr ⟨rfl, Or.inl h3⟩
  · exact Or.inr ⟨rfl, Or.inr h4⟩
  · exact Or.inl rfl
  · exact Or.inl rfl

lemma fillStep_image_km (c : container) (part : List Char) :
    (fillStep c part).Image = c.Image ∨
      ((fillStep c part).Image = "" ∧ isKMPair part = true) := by
  cases hp : pairOf part with
  | none => rw [fillStep_of_no_pair hp]; exact Or.inl rfl
  | some kv =>
    obtain ⟨k, v⟩ := kv
    rw [fillStep_of_pair hp]
    rcases keyStep_image_km c k v with h | ⟨h1, h2⟩
    · exact Or.inl h
    · refine Or.inr ⟨h1, ?_⟩
      simp only [isKMPair, hp]
      rcases h2 with h2 | h2 <;> simp [h2]

lemma fillLoop_image_km : ∀ (parts : List (List Char)) (c : container),
    (fillLoop c parts).Image = c.Image ∨
      ((fillLoop c parts).Image = "" ∧ parts.any isKMPair = true) := by
  intro parts
  induction parts with
  | nil => intro c; exact Or.inl rfl
  | cons part rest ih =>
    intro c
    simp only [fillLoop]
    by_cases hn : (fillStep c part).project.name ≠ ""
    · rw [if_pos hn]
      rcases fillStep_image_km c part with h | ⟨h1, h2⟩
      · exact Or.inl h
      · exact Or.inr ⟨h1, by simp [h2]⟩
    · rw [if_neg hn]
      rcases ih (fillStep c part) with h | ⟨h1, h2⟩
      · rcases fillStep_image_km c part with h2 | ⟨h3, h4⟩
        · exact Or.inl (h.trans h2)
        · exact Or.inr ⟨h.trans h3, by simp [h4]⟩
      · exact Or.inr ⟨h1, by simp [h2]⟩

lemma keyStep_km (c : container) (k v : List Char) (h : kmOk c) : kmOk (keyStep c k v) := by
  unfold keyStep
  split_ifs <;> intro hor
  · exfalso; rcases hor with h2 | h2 <;> simp at h2
  · exfalso; rcases hor with h2 | h2 <;> simp at h2
  · rfl
  · rfl
  · exfalso; rcases hor with h2 | h2 <;> simp at h2
  · exact h hor

lemma fillStep_km (c : container) (part : List Char) (h : kmOk c) : kmOk (fillStep c part) := by
  cases hp : pairOf part with
  | none => rw [fillStep_of_no_pair hp]; exact h
  | some kv => obtain ⟨k, v⟩ := kv; rw [fillStep_of_pair hp]; exact keyStep_km c k v h

lemma fillLoop_km : ∀ (parts : List (List Char)) (c : container),
    kmOk c → kmOk (fillLoop c parts) := by
  intro parts
  induction parts with
  | nil => intro c h; exact h
  | cons part rest ih =>
    intro c h
    simp only [fillLoop]
    by_cases hn : (fillStep c part).project.name ≠ ""
    · rw [if_pos hn]; exact fillStep_km c part h
    · rw [if_neg hn]; exact ih (fillStep c part) (fillStep_km c part h)

/-- Claim C9, counterexample: with an empty-valued Kubernetes key followed
by a Compose key, classification clears the image reference although the
final classification is Compose, not Kubernetes or Minikube. -/
theorem C9_counterexample :
    exC9.Image = "nginx:latest" ∧ (fill exC9).Image = "" ∧
    (fill exC9).project.typ = containerType.Compose ∧
    containerType.Compose ≠ containerType.Kubernetes ∧
    containerType.Compose ≠ containerType.Minikube := by
  exact ⟨by decide, by decide, by decide, by decide, by decide⟩

/-- Claim C9, amended: classification clears the image reference whenever
the final classification is Kubernetes or Minikube (it may additionally
clear it when an empty-valued Kubernetes or Minikube key is scanned before
the winning key); the image reference is otherwise unchanged: it can change
only by being cleared, and only when the split label string contains a
well-formed Kubernetes or Minikube key pair, so any label string without
such a pair (for example a Talos-only or Compose-only label set) leaves it
untouched; and every record field other than the project and the image
reference is left unchanged. -/
theorem C9_amended (c : container) :
    ((fill c).project.typ = containerType.Kubernetes ∨
      (fill c).project.typ = containerType.Minikube → (fill c).Image = "") ∧
    ((fill c).Image = c.Image ∨
      ((fill c).Image = "" ∧ (splitChar ',' c.Labels.toList).any isKMPair = true)) ∧
    sameFrame (fill c) c := by
  refine ⟨?_, ?_, ?_⟩
  · exact fillLoop_km _ _ (by intro hor; rcases hor with h | h <;> simp at h)
  · exact fillLoop_image_km _ _
  · exact sameFrame_trans (fillLoop_frame _ _) (sameFrame_refl _)

/-- Instance of C9_amended at a concrete input. -/
theorem C9_witness : (fill exK8s).Image = "" :=
  (C9_amended exK8s).1 (Or.inl (by decide))

lemma toNat_inj {s t : containerType} (h : s.toNat = t.toNat) : s = t := by
  cases s <;> cases t <;> simp_all [containerType.toNat]

lemma strToList_inj {a b : String} (h : a.toList = b.toList) : a = b := by
  cases a; cases b; exact congrArg String.mk h

lemma ltChars_iff : ∀ a b : List Char, ltChars a b = true ↔ List.Lex (· < ·) a b := by
  intro a
  induction a with
  | nil =>
    intro b
    cases b with
    | nil =>
      simp only [ltChars]
      constructor
      · intro h; cases h
      · intro h; exact absurd h (List.Lex.not_nil_right _ _)
    | cons bh bt =>
      simp only [ltChars]
      exact ⟨fun _ => List.Lex.nil, fun _ => trivial⟩
  | cons ah as2 ih =>
    intro b
    cases b with
    | nil =>
      simp only [ltChars]
      constructor
      · intro h; cases h
      · intro h; exact absurd h (List.Lex.not_nil_right _ _)
    | cons bh bt =>
      simp only [ltChars]
      by_cases h1 : ah < bh
      · simp only [if_pos h1]
        exact ⟨fun _ => List.Lex.rel h1, fun _ => trivial⟩
      · by_cases h2 : bh < ah
        · simp only [if_neg h1, if_pos h2]
          constructor
          · intro h; cases h
          · intro h
            cases h with
            | cons h3 => exact absurd h2 (lt_irrefl _)
            | rel h3 => exact absurd h3 h1
        · have heq : ah = bh := le_antisymm (not_lt.mp h2) (not_lt.mp h1)
          subst heq
          simp only [if_neg h1, if_neg h2]
          rw [ih bt]
          exact List.Lex.cons_iff.symm

lemma ltChars_iff_lt (a b : List Char) : ltChars a b = true ↔ a < b := by
  rw [ltChars_iff]
  exact Iff.rfl

lemma containerLess_iff (a b : container) :
    containerLess a b = true ↔ sortKey a < sortKey b := by
  unfold containerLess sortKey
  rw [Prod.Lex.lt_iff]
  simp only [Prod.fst, Prod.snd]
  rw [Prod.Lex.lt_iff]
  by_cases h1 : a.project.typ.toNat = b.project.typ.toNat
  · by_cases h2 : a.project.name = b.project.name
    · have h2l : a.project.name.data = b.project.name.data := by rw [h2]
      simp [h1, h2, h2l, ltChars_iff_lt, lt_irrefl, String.toList]
    · have h2l : ¬ a.project.name.data = b.project.name.data :=
        fun hc => h2 (strToList_inj hc)
      simp [h1, h2, h2l, ltChars_iff_lt, lt_irrefl, String.toList]
  · simp [h1, ltChars_iff_lt, String.toList]

lemma containerLE_iff (a b : container) : containerLE a b = true ↔ sortKey a ≤ sortKey b := by
  unfold containerLE
  rw [Bool.not_eq_true']
  rw [← Bool.not_eq_true (containerLess b a)]
  rw [containerLess_iff]
  exact not_lt

lemma containerLE_refl (a : container) : containerLE a a = true :=
  (containerLE_iff a a).mpr le_rfl

lemma containerLE_trans : ∀ (a b c : container),
    containerLE a b → containerLE b c → containerLE a c := by
  intro a b c hab hbc
  rw [containerLE_iff] at hab hbc ⊢
  exact le_trans hab hbc

lemma containerLE_total : ∀ (a b : container), containerLE a b || containerLE b a := by
  intro a b
  rcases le_total (sortKey a) (sortKey b) with h | h
  · have h2 := (containerLE_iff a b).mpr h
    simp [h2]
  · have h2 := (containerLE_iff b a).mpr h
    simp [h2]

lemma order_sorted (l : List container) :
    (order l).Pairwise (fun a b => containerLE a b = true) :=
  List.sorted_mergeSort containerLE_trans containerLE_total l

lemma groupKey_le_of_sortKey_le {a b : container} (h : sortKey a ≤ sortKey b) :
    groupKey a ≤ groupKey b := by
  unfold sortKey at h
  unfold groupKey
  rw [Prod.Lex.le_iff] at h ⊢
  rcases h with h | ⟨heq, hinner⟩
  · exact Or.inl h
  · rw [Prod.Lex.le_iff] at hinner
    rcases hinner with h2 | ⟨heq2, _⟩
    · exact Or.inr ⟨heq, le_of_lt h2⟩
    · exact Or.inr ⟨heq, le_of_eq heq2⟩

lemma projKey_eq_iff {a b : container} : projKey a = projKey b ↔ groupKey a = groupKey b := by
  unfold projKey groupKey
  constructor
  · intro h
    simp only [Prod.mk.injEq] at h
    rw [toLex_inj]
    simp only [Prod.mk.injEq]
    exact ⟨congrArg containerType.toNat h.1, congrArg String.toList h.2⟩
  · intro h
    rw [toLex_inj] at h
    simp only [Prod.mk.injEq] at h ⊢
    exact ⟨toNat_inj h.1, strToList_inj h.2⟩

lemma projKey_sandwich {a b c : container}
    (hab : containerLE a b = true) (hbc : containerLE b c = true)
    (hac : projKey a = projKey c) : projKey b = projKey a := by
  rw [containerLE_iff] at hab hbc
  have h1 := groupKey_le_of_sortKey_le hab
  have h2 := groupKey_le_of_sortKey_le hbc
  rw [projKey_eq_iff] at hac ⊢
  rw [hac] at h1
  exact (le_antisymm h2 h1).trans hac.symm

/-- Claim C7: the ordering produces a sequence pairwise ordered by the
ascending (project type, project name, display name) comparison, the output
is a permutation of the input, ordering an already-ordered list leaves it
unchanged, and containers sharing a (ProjectType, ProjectName) pair form
one contiguous run (any index between two equal-key positions carries the
same key). -/
theorem C7_ordering (l : List container) :
    (order l).Pairwise (fun a b => containerLE a b = true) ∧
    List.Perm (order l) l ∧
    order (order l) = order l ∧
    (∀ i j k : Nat, i ≤ j → j ≤ k → k < (order l).length →
      projKey ((order l).getD i default) = projKey ((order l).getD k default) →
      projKey ((order l).getD j default) = projKey ((order l).getD i default)) := by
  have hsorted := order_sorted l
  refine ⟨hsorted, List.mergeSort_perm l _, List.mergeSort_of_sorted hsorted, ?_⟩
  intro i j k hij hjk hk hik
  have hi : i < (order l).length := lt_of_le_of_lt (le_trans hij hjk) hk
  have hj : j < (order l).length := lt_of_le_of_lt hjk hk
  rw [List.getD_eq_getElem _ _ hi, List.getD_eq_getElem _ _ hk] at hik
  rw [List.getD_eq_getElem _ _ hj, List.getD_eq_getElem _ _ hi]
  have hpw := List.pairwise_iff_getElem.mp hsorted
  have h1 : containerLE (order l)[i] (order l)[j] = true := by
    rcases Nat.lt_or_ge i j with h | h
    · exact hpw i j hi hj h
    · have : i = j := le_antisymm hij h
      subst this
      exact containerLE_refl _
  have h2 : containerLE (order l)[j] (order l)[k] = true := by
    rcases Nat.lt_or_ge j k with h | h
    · exact hpw j k hj hk h
    · have : j = k := le_antisymm hjk h
      subst this
      exact containerLE_refl _
  exact projKey_sandwich h1 h2 hik

/-- Instance of C7_ordering at a concrete input. -/
theorem C7_witness :
    projKey ((order demoSorted).getD 1 default) = projKey ((order demoSorted).getD 0 default) := by
  have h : order demoSorted = demoSorted := List.mergeSort_of_sorted (by decide)
  exact (C7_ordering demoSorted).2.2.2 0 1 2 (by decide) (by decide)
    (by rw [h]; decide) (by rw [h]; decide)

/-- Instance of C5_amended at a concrete input. -/
theorem C5_witness : anonymous ⟨"local", String.mk (List.replicate 64 'a')⟩ = true :=
  (C5_amended ⟨"local", String.mk (List.replicate 64 'a')⟩).mpr ⟨rfl, by decide, by decide⟩

/-- Instance of C6_running_iff at a concrete input. -/
theorem C6_witness : running (mkC "a1" "n1" "" "" "" "Up 2 hours") = true :=
  (C6_running_iff (mkC "a1" "n1" "" "" "" "Up 2 hours")).mpr (Or.inr (by decide))
